import Mathlib

/-!
Shallow embedding of `src/Lead_scoring_training_pipeline/utils.py`
(functions `encode_features` and `get_trained_model`), together with
proofs of the behavioural properties claimed by the specification.

Tables are modelled as in-memory data frames: an ordered list of named
columns, each column a list of cells.  A cell is `Option Val`: `none`
models a missing value (pandas `NaN` / SQL `NULL`), `some v` a present
value.  Persisting a table to the store (`to_sql`) is modelled by the
result constructors of each pipeline stage: a table appears in the
result exactly when the source writes it.
-/

namespace LeadScoring

/-- A scalar value held by a table cell: an integer or a string
(the two kinds of values the pipeline's tables carry). -/
inductive Val where
  | i : Int → Val
  | s : String → Val
deriving DecidableEq, Repr

/-- A cell of a data frame; `none` models a missing value (NaN/NULL). -/
abbrev Cell := Option Val

/-- String rendering of a value, used when `get_dummies` builds the
generated one-hot column names `<feature>_<value>`. -/
def valToString : Val → String
  | .i n => toString n
  | .s st => st

/-- Ordering on values, modelling the sorted order in which pandas
`get_dummies` lays out the distinct observed categories. -/
def Val.le : Val → Val → Bool
  | .i a, .i b => a ≤ b
  | .i _, .s _ => true
  | .s _, .i _ => false
  | .s a, .s b => a ≤ b

/-- Insert a value into a sorted list of values. -/
def insertVal (v : Val) : List Val → List Val
  | [] => [v]
  | x :: xs => if Val.le v x then v :: x :: xs else x :: insertVal v xs

/-- Insertion sort on values. -/
def sortVals : List Val → List Val
  | [] => []
  | x :: xs => insertVal x (sortVals xs)

/-- A pandas `DataFrame`: a row count and an ordered list of named
columns.  In every frame the source constructs, each column has
`nrows` cells (`WF` below). -/
structure DataFrame where
  nrows : Nat
  cols : List (String × List Cell)
deriving DecidableEq, Repr

/-- First column of a given name in a named-column list (`df[c]`). -/
def colFind : List (String × List Cell) → String → Option (List Cell)
  | [], _ => none
  | p :: ps, c => if p.1 = c then some p.2 else colFind ps c

namespace DataFrame

/-- The ordered list of column names (`df.columns`). -/
def colNames (d : DataFrame) : List String := d.cols.map Prod.fst

/-- Rectangularity: every column holds exactly `nrows` cells. -/
def WF (d : DataFrame) : Prop := ∀ p ∈ d.cols, p.2.length = d.nrows

instance (d : DataFrame) : Decidable d.WF :=
  List.decidableBAll _ d.cols

/-- Column selection `df[c]`: the first column named `c`, if any. -/
def getCol? (d : DataFrame) (c : String) : Option (List Cell) :=
  colFind d.cols c

/-- Column assignment `df[c] = v`.  Mirrors pandas semantics for the
assignments the source performs (the assigned name is always an
existing column, and the assigned series always has the input table's
length): on a frame with zero rows the frame adopts the length of the
assigned series and every other column is padded with missing values;
otherwise the named column is replaced in place. -/
def setCol (d : DataFrame) (c : String) (v : List Cell) : DataFrame :=
  if d.nrows = 0 then
    ⟨v.length, d.cols.map (fun p =>
      (p.1, if p.1 = c then v else List.replicate v.length (none : Cell)))⟩
  else
    ⟨d.nrows, d.cols.map (fun p => if p.1 = c then (p.1, v) else p)⟩

/-- An empty frame with the given columns and no rows
(`pd.DataFrame(columns = ONE_HOT_ENCODED_FEATURES)`). -/
def mkEmpty (schema : List String) : DataFrame :=
  ⟨0, schema.map (fun c => (c, ([] : List Cell)))⟩

/-- Replacement of one missing cell by the integer 0. -/
def fillCell : Cell → Cell
  | none => some (Val.i 0)
  | some v => some v

/-- In-place `df.fillna(0)`: every missing cell becomes the integer 0. -/
def fillna (d : DataFrame) : DataFrame :=
  ⟨d.nrows, d.cols.map (fun p => (p.1, p.2.map fillCell))⟩

/-- Removal of every column of a given name (`df.drop(c, axis = 1)`). -/
def removeCols : List (String × List Cell) → String → List (String × List Cell)
  | [], _ => []
  | p :: ps, c => if p.1 = c then removeCols ps c else p :: removeCols ps c

/-- Restriction to the columns of a given name (`df[c]` as a written
one-column table). -/
def keepCols : List (String × List Cell) → String → List (String × List Cell)
  | [], _ => []
  | p :: ps, c => if p.1 = c then p :: keepCols ps c else keepCols ps c

/-- Column removal `df.drop(c, axis = 1)`. -/
def dropCol (d : DataFrame) (c : String) : DataFrame :=
  ⟨d.nrows, removeCols d.cols c⟩

/-- The one-column frame written for `df[c]` (`target.to_sql`). -/
def selectCol (d : DataFrame) (c : String) : DataFrame :=
  ⟨d.nrows, keepCols d.cols c⟩

/-- The `i`-th row of the frame, one cell per column, out-of-range
positions read as missing. -/
def rowAt (d : DataFrame) (i : Nat) : List Cell :=
  d.cols.map (fun p => p.2.getD i none)

end DataFrame

/-- The cell of column `c` at row `i`: `none` when no such column or
row exists, `some x` the stored cell otherwise. -/
def cellAt (d : DataFrame) (c : String) (i : Nat) : Option Cell :=
  (d.getCol? c).bind (fun cells => cells.get? i)

/-- One-hot expansion of a column
(`pd.get_dummies(df[feature]).add_prefix(feature + "_")`): one
indicator column per distinct observed value, in sorted value order,
named `<feature>_<value>`; a missing cell matches no category, so its
row is 0 in every generated column. -/
def getDummies (pfx : String) (cells : List Cell) : List (String × List Cell) :=
  let vals := sortVals (cells.filterMap id).dedup
  vals.map (fun v =>
    (pfx ++ "_" ++ valToString v,
     cells.map (fun cl => if cl = some v then some (Val.i 1) else some (Val.i 0))))

/-- First generated column of the given name in the side buffer
(`placeholder_df[feature]`). -/
def lookupCol (ph : List (String × List Cell)) (c : String) : Option (List Cell) :=
  colFind ph c

/-- The first loop of `encode_features`: for each configured
categorical feature in order, one-hot encode it and append the
generated columns to the side buffer (`placeholder_df`); if a feature
is absent from the input columns the whole loop aborts (`none`),
modelling the `print; return df` short-circuit. -/
def buildPlaceholder (featuresToEncode : List String) (df : DataFrame) :
    Option (List (String × List Cell)) :=
  match featuresToEncode with
  | [] => some []
  | f :: rest =>
    match df.getCol? f with
    | none => none
    | some cells =>
      (buildPlaceholder rest df).map (fun tl => getDummies f cells ++ tl)

/-- The second loop of `encode_features`
(`for feature in encoded_df.columns`): for each configured output
column, first copy the input column of that name if one exists, then
copy the generated one-hot column of that name if one exists (two
independent `if`s in the source, so a generated column overwrites a
verbatim input column of the same name). -/
def assembleLoop (schema : List String) (df : DataFrame)
    (ph : List (String × List Cell)) (acc : DataFrame) : DataFrame :=
  match schema with
  | [] => acc
  | c :: rest =>
    let acc1 := match df.getCol? c with
      | some cells => acc.setCol c cells
      | none => acc
    let acc2 := match lookupCol ph c with
      | some cells => acc1.setCol c cells
      | none => acc1
    assembleLoop rest df ph acc2

/-- The output frame of `encode_features` just before `fillna`:
the configured schema assembled over the input frame and the side
buffer of generated one-hot columns.  `none` when the encoder aborts
on a missing configured feature. -/
def assembled (featuresToEncode schema : List String) (df : DataFrame) :
    Option DataFrame :=
  (buildPlaceholder featuresToEncode df).map
    (fun ph => assembleLoop schema df ph (DataFrame.mkEmpty schema))

/-- Observable outcome of `encode_features`. -/
inductive EncodeResult where
  /-- The missing-feature short-circuit: the diagnostic that was
  printed and the frame the function returned; no table was written. -/
  | aborted (message : String) (returned : DataFrame)
  /-- Normal completion: the `features` and `target` tables written to
  the store (replace-on-write). -/
  | completed (features target : DataFrame)
  /-- An uncaught exception (reachable only when the label column is
  not part of the configured output schema, making `drop` raise). -/
  | error (message : String)
deriving DecidableEq, Repr

/-- Shallow embedding of `encode_features` (utils.py lines 63-88),
parameterised by the two configuration constants and by the
`model_input` table read from the store.  The two `to_sql` writes are
modelled as succeeding, which matches the storage layer whenever the
frame being written has at least one column; a zero-column features
frame — possible only when every name in the configured output schema
is the label column, a configuration the repository never uses — would
make the store itself reject the write (`CREATE TABLE` with no
columns), an external-store failure mode outside this embedding.
Every concrete schema instantiated in this file contains a non-label
column, so all concrete instances stay in the faithful region. -/
def encode_features (FEATURES_TO_ENCODE ONE_HOT_ENCODED_FEATURES : List String)
    (df : DataFrame) : EncodeResult :=
  match buildPlaceholder FEATURES_TO_ENCODE df with
  | none => .aborted "Feature not found" df
  | some ph =>
    let encoded :=
      (assembleLoop ONE_HOT_ENCODED_FEATURES df ph
        (DataFrame.mkEmpty ONE_HOT_ENCODED_FEATURES)).fillna
    if "app_complete_flag" ∈ encoded.colNames then
      .completed (encoded.dropCol "app_complete_flag")
        (encoded.selectCol "app_complete_flag")
    else
      .error "KeyError: app_complete_flag"

/-- The column-name list of the written `features` table, when one was
written. -/
def featuresCols : EncodeResult → Option (List String)
  | .completed f _ => some f.colNames
  | _ => none

/-- The column-name list of the written `target` table, when one was
written. -/
def targetCols : EncodeResult → Option (List String)
  | .completed _ t => some t.colNames
  | _ => none

/-- The row count of the written `features` table, when one was
written. -/
def featuresNrows : EncodeResult → Option Nat
  | .completed f _ => some f.nrows
  | _ => none

/-- The written `features` table, when one was written. -/
def resultFeatures : EncodeResult → Option DataFrame
  | .completed f _ => some f
  | _ => none

/-- The written `target` table, when one was written. -/
def resultTarget : EncodeResult → Option DataFrame
  | .completed _ t => some t
  | _ => none

/-- Whether the encoder ran to completion and wrote both tables. -/
def completedB : EncodeResult → Bool
  | .completed _ _ => true
  | _ => false

/-! Embedding of `get_trained_model` (utils.py lines 96-170).
The boosted-tree library is an external collaborator, so the fitted
classifier is a parameter (`fit`); the sklearn helpers whose observable
behaviour the claims depend on (`train_test_split`, `confusion_matrix`,
`roc_auc_score`'s failure condition) are embedded from their documented
semantics.  A logged metric is recorded symbolically as the library
call that produced it (which metric function, with which arguments, in
which order): the metric formulas themselves are external-library
responsibility and out of scope. -/

/-- One step of the 64-bit linear congruential generator used to model
the external seeded pseudo-random source (`random_state`).  The exact
bit pattern of the library's generator is out of scope; what the
embedding preserves is that the stream is a pure function of the seed. -/
def lcgNext (s : Nat) : Nat :=
  (6364136223846793005 * s + 1442695040888963407) % 18446744073709551616

/-- Insert an element at a given position of a list. -/
def insertAt (x : Nat) (i : Nat) : List Nat → List Nat
  | [] => [x]
  | y :: ys => if i = 0 then x :: y :: ys else y :: insertAt x (i - 1) ys

/-- Build a pseudo-random permutation of `0, …, remaining-1` by
repeated insertion driven by the generator stream. -/
def permBuild (s : Nat) : Nat → List Nat → List Nat
  | 0, acc => acc
  | Nat.succ m, acc =>
    let s1 := lcgNext s
    permBuild s1 m (insertAt acc.length (s1 % (acc.length + 1)) acc)

/-- The shuffled index order produced by the seeded generator: a
deterministic permutation of `0, …, n-1` as a function of the seed. -/
def permFor (seed n : Nat) : List Nat := permBuild seed n []

/-- Test-partition size for `test_size = 0.3`: `ceil(0.3 * n)`, as the
split helper computes it. -/
def nTestOf (n : Nat) : Nat := (3 * n + 9) / 10

/-- Row-index split of `train_test_split(..., test_size = 0.3,
random_state = rs)`: shuffle `0, …, n-1` with the seed (drawing fresh
entropy only when `rs` is `none`), then take the first `ceil(0.3*n)`
shuffled indices as the test partition and the rest as the train
partition.  Returns `(trainIdx, testIdx)`. -/
def trainTestSplitIdx (randomState : Option Nat) (entropy n : Nat) :
    List Nat × List Nat :=
  let p := permFor (randomState.getD entropy) n
  (p.drop (nTestOf n), p.take (nTestOf n))

/-- Flattening `df_target.to_numpy().reshape(-1)`: the table's cells in
row-major order, read as integer labels. -/
def cellToNat : Cell → Nat
  | some (Val.i k) => k.toNat
  | _ => 0

/-- The 1-D label vector obtained from the target table. -/
def targetVector (d : DataFrame) : List Nat :=
  (List.range d.nrows).flatMap
    (fun i => d.cols.map (fun p => cellToNat (p.2.getD i none)))

/-- A logged metric, recorded as the library computation that produced
it: the metric function and its arguments in the order the source
passes them (first argument = the library's ground-truth slot). -/
inductive MetricExpr where
  | accuracy (a b : List Nat)
  | rocAuc (a b : List Nat)
  | f1Macro (a b : List Nat)
  | precisionMacro (a b : List Nat)
  | recallMacro (a b : List Nat)
  /-- Component `comp` (0 = precision, 1 = recall, 2 = fscore) of
  `precision_recall_fscore_support(a, b, average = binary, pos_label)`. -/
  | prfsComp (a b : List Nat) (posLabel comp : Nat)
  /-- A count read out of a confusion matrix. -/
  | count (n : Nat)
deriving DecidableEq, Repr

/-- Insert a number into a sorted list of numbers. -/
def insertNat (x : Nat) : List Nat → List Nat
  | [] => [x]
  | y :: ys => if x ≤ y then x :: y :: ys else y :: insertNat x ys

/-- Insertion sort on numbers. -/
def sortNat : List Nat → List Nat
  | [] => []
  | x :: xs => insertNat x (sortNat xs)

/-- Sorted distinct class labels occurring in either argument: the
label axis of `sklearn.metrics.confusion_matrix`. -/
def sortedLabels (a b : List Nat) : List Nat :=
  sortNat ((a ++ b).dedup)

/-- Embedding of `confusion_matrix(yTrue, yPred)`: entry `[i][j]`
counts the samples whose true label is the `i`-th class and whose
predicted label is the `j`-th class. -/
def confusionMatrix (yTrue yPred : List Nat) : List (List Nat) :=
  let labels := sortedLabels yTrue yPred
  labels.map (fun i => labels.map (fun j =>
    (yTrue.zip yPred).countP (fun p => p.1 == i && p.2 == j)))

/-- Total read of a confusion-matrix entry (0 when out of range). -/
def cmEntry (m : List (List Nat)) (i j : Nat) : Nat :=
  ((m.get? i).bind (fun row => row.get? j)).getD 0

/-- Matrix indexing `cm[i][j]` as Python performs it: an out-of-range
index raises. -/
def cmGet (m : List (List Nat)) (i j : Nat) : Except String Nat :=
  match (m.get? i).bind (fun row => row.get? j) with
  | some v => .ok v
  | none => .error "IndexError"

/-- The error `roc_auc_score` raises when its first argument does not
contain two distinct classes. -/
def rocAucErrMsg : String :=
  "Only one class present in y_true. ROC AUC score is not defined in that case."

/-- Embedding of `roc_auc_score(yTrue, yScore)` at the level the claims
need: the call succeeds exactly when the first argument contains two
distinct classes, and otherwise raises. -/
def rocAucCheck (yTrue yScore : List Nat) : Except String MetricExpr :=
  if (yTrue.dedup).length = 2 then .ok (.rocAuc yTrue yScore)
  else .error rocAucErrMsg

/-- The metric block of `get_trained_model` (utils.py lines 141-167),
in source order: compute every metric value (lines 141-153), then log
the thirteen metrics (lines 155-167).  Returns the two
confusion-matrix calls performed, in order and with their argument
order, and the logged `(name, metric)` pairs; an exception anywhere in
the computation aborts the block before anything is logged. -/
def metricPhase (yTest yPred : List Nat) :
    Except String (List ((List Nat) × (List Nat)) × List (String × MetricExpr)) :=
  match rocAucCheck yPred yTest with
  | .error msg => .error msg
  | .ok aucScore =>
    match cmGet (confusionMatrix yTest yPred) 0 0 with
    | .error msg => .error msg
    | .ok tn =>
      match cmGet (confusionMatrix yTest yPred) 1 0 with
      | .error msg => .error msg
      | .ok fn =>
        match cmGet (confusionMatrix yTest yPred) 1 1 with
        | .error msg => .error msg
        | .ok _tp =>
          match cmGet (confusionMatrix yTest yPred) 0 1 with
          | .error msg => .error msg
          | .ok _fp =>
            .ok ([(yPred, yTest), (yTest, yPred)],
              [("roc_auc_score", aucScore),
               ("test_accuracy", MetricExpr.accuracy yPred yTest),
               ("f1", MetricExpr.f1Macro yPred yTest),
               ("Precision", MetricExpr.precisionMacro yPred yTest),
               ("Recall", MetricExpr.recallMacro yPred yTest),
               ("Precision_0", MetricExpr.prfsComp yTest yPred 0 0),
               ("Precision_1", MetricExpr.prfsComp yTest yPred 1 0),
               ("Recall_0", MetricExpr.prfsComp yTest yPred 0 1),
               ("Recall_1", MetricExpr.prfsComp yTest yPred 1 1),
               ("f1_0", MetricExpr.prfsComp yTest yPred 0 2),
               ("f1_1", MetricExpr.prfsComp yTest yPred 1 2),
               ("False Negative", MetricExpr.count fn),
               ("True Negative", MetricExpr.count tn)])

/-- A fitted external classifier: train rows and labels in, predicted
labels for the test rows out. -/
abbrev Fitter := List (List Cell) → List Nat → List (List Cell) → List Nat

/-- The index split `get_trained_model` performs: `train_test_split`
with `test_size = 0.3` and the fixed seed `random_state = 0`. -/
def splitIdxOf (dfFeatures : DataFrame) (entropy : Nat) : List Nat × List Nat :=
  trainTestSplitIdx (some 0) entropy dfFeatures.nrows

/-- The actual labels of the test partition. -/
def yTestOf (dfFeatures dfTarget : DataFrame) (entropy : Nat) : List Nat :=
  (splitIdxOf dfFeatures entropy).2.map
    (fun i => (targetVector dfTarget).getD i 0)

/-- The model's predicted labels on the test partition. -/
def predsOf (dfFeatures dfTarget : DataFrame) (fit : Fitter) (entropy : Nat) :
    List Nat :=
  let y := targetVector dfTarget
  let idx := splitIdxOf dfFeatures entropy
  fit (idx.1.map dfFeatures.rowAt) (idx.1.map (fun i => y.getD i 0))
    (idx.2.map dfFeatures.rowAt)

/-- The observable record of one completed tracking run. -/
structure RunRecord where
  registeredModelName : String
  trainIdx : List Nat
  testIdx : List Nat
  yTest : List Nat
  yPred : List Nat
  /-- The confusion-matrix computations performed, in order, each with
  its `(first, second)` argument pair. -/
  cmCalls : List ((List Nat) × (List Nat))
  /-- The metrics logged to the run, in logging order. -/
  metrics : List (String × MetricExpr)
deriving DecidableEq, Repr

/-- Shallow embedding of `get_trained_model` (utils.py lines 119-170),
parameterised by the two tables read from the store, the external
classifier, and the entropy the split helper would draw were no seed
fixed.  On success the run record is returned; an uncaught exception
yields `error` and nothing is logged. -/
def get_trained_model (dfFeatures dfTarget : DataFrame) (fit : Fitter)
    (entropy : Nat) : Except String RunRecord :=
  match metricPhase (yTestOf dfFeatures dfTarget entropy)
      (predsOf dfFeatures dfTarget fit entropy) with
  | .error msg => .error msg
  | .ok pr =>
    .ok ⟨"LightGBM", (splitIdxOf dfFeatures entropy).1,
      (splitIdxOf dfFeatures entropy).2, yTestOf dfFeatures dfTarget entropy,
      predsOf dfFeatures dfTarget fit entropy, pr.1, pr.2⟩

/-! Concrete tables and classifiers used to instantiate the theorems
below on closed inputs. -/

/-- A two-row `model_input` table with two categorical features and
the label, matching the specification's end-to-end scenario. -/
def dfSpecEx : DataFrame :=
  ⟨2, [("city", [some (Val.s "A"), some (Val.s "B")]),
       ("source", [some (Val.s "X"), some (Val.s "Y")]),
       ("app_complete_flag", [some (Val.i 1), some (Val.i 0)])]⟩

/-- A one-row input whose column `city_A` exists verbatim and also
arises as a generated one-hot column name. -/
def dfBoth : DataFrame :=
  ⟨1, [("city", [some (Val.s "A")]), ("city_A", [some (Val.i 7)])]⟩

/-- A one-row input holding only the categorical feature `city`. -/
def dfOne : DataFrame := ⟨1, [("city", [some (Val.s "A")])]⟩

/-- The features table `encode_features` writes for `dfOne` under the
schema `[city_A, app_complete_flag]`. -/
def dfC4f : DataFrame := ⟨1, [("city_A", [some (Val.i 1)])]⟩

/-- The target table `encode_features` writes for `dfOne` under the
schema `[city_A, app_complete_flag]`. -/
def dfC4t : DataFrame := ⟨1, [("app_complete_flag", [some (Val.i 0)])]⟩

/-- A four-row features table. -/
def dfF4 : DataFrame :=
  ⟨4, [("x", [some (Val.i 1), some (Val.i 2), some (Val.i 3), some (Val.i 4)])]⟩

/-- A four-row target table with both classes present. -/
def dfT4 : DataFrame :=
  ⟨4, [("app_complete_flag",
        [some (Val.i 0), some (Val.i 1), some (Val.i 0), some (Val.i 1)])]⟩

/-- An external classifier predicting the single class 0 everywhere. -/
def fitConst : Fitter := fun _ _ xs => xs.map (fun _ => 0)

/-- An external classifier predicting alternating classes. -/
def fitAlt : Fitter := fun _ _ xs => (List.range xs.length).map (fun k => k % 2)

/-- The tracking-run record produced by training on `dfF4`/`dfT4` with
the alternating classifier. -/
def runAlt : RunRecord :=
  ⟨"LightGBM", [2, 0], [3, 1], [1, 1], [0, 1],
   [([0, 1], [1, 1]), ([1, 1], [0, 1])],
   [("roc_auc_score", MetricExpr.rocAuc [0, 1] [1, 1]),
    ("test_accuracy", MetricExpr.accuracy [0, 1] [1, 1]),
    ("f1", MetricExpr.f1Macro [0, 1] [1, 1]),
    ("Precision", MetricExpr.precisionMacro [0, 1] [1, 1]),
    ("Recall", MetricExpr.recallMacro [0, 1] [1, 1]),
    ("Precision_0", MetricExpr.prfsComp [1, 1] [0, 1] 0 0),
    ("Precision_1", MetricExpr.prfsComp [1, 1] [0, 1] 1 0),
    ("Recall_0", MetricExpr.prfsComp [1, 1] [0, 1] 0 1),
    ("Recall_1", MetricExpr.prfsComp [1, 1] [0, 1] 1 1),
    ("f1_0", MetricExpr.prfsComp [1, 1] [0, 1] 0 2),
    ("f1_1", MetricExpr.prfsComp [1, 1] [0, 1] 1 2),
    ("False Negative", MetricExpr.count 1),
    ("True Negative", MetricExpr.count 0)]⟩

/-- The thirteen metric names `get_trained_model` logs, in logging
order. -/
def metricNames13 : List String :=
  ["roc_auc_score", "test_accuracy", "f1", "Precision", "Recall",
   "Precision_0", "Precision_1", "Recall_0", "Recall_1", "f1_0", "f1_1",
   "False Negative", "True Negative"]

/-! Lemmas about the data-frame operations. -/

theorem colFind_eq_none {l : List (String × List Cell)} {c : String} :
    colFind l c = none ↔ ∀ p ∈ l, p.1 ≠ c := by
  induction l with
  | nil => simp [colFind]
  | cons p ps ih =>
    by_cases hp : p.1 = c <;> simp [colFind, hp, ih]

theorem colFind_mem {l : List (String × List Cell)} {c : String} {cells : List Cell}
    (h : colFind l c = some cells) : (c, cells) ∈ l := by
  induction l with
  | nil => cases h
  | cons p ps ih =>
    by_cases hp : p.1 = c
    · simp only [colFind, if_pos hp] at h
      cases h
      exact hp ▸ List.mem_cons_self ..
    · simp only [colFind, if_neg hp] at h
      exact List.mem_cons_of_mem _ (ih h)

theorem getCol?_eq_none {d : DataFrame} {c : String} :
    d.getCol? c = none ↔ c ∉ d.colNames := by
  rw [DataFrame.getCol?, colFind_eq_none]
  simp only [DataFrame.colNames, List.mem_map]
  constructor
  · rintro h ⟨p, hp, hpc⟩
    exact h p hp hpc
  · intro h p hp hpc
    exact h ⟨p, hp, hpc⟩

theorem getCol?_mem {d : DataFrame} {c : String} {cells : List Cell}
    (h : d.getCol? c = some cells) : (c, cells) ∈ d.cols :=
  colFind_mem h

theorem getCol?_length {d : DataFrame} {c : String} {cells : List Cell}
    (hwf : d.WF) (h : d.getCol? c = some cells) : cells.length = d.nrows :=
  hwf _ (getCol?_mem h)

theorem colFind_isSome_of_mem {l : List (String × List Cell)} {c : String}
    (h : ∃ p ∈ l, p.1 = c) : ∃ cells, colFind l c = some cells := by
  induction l with
  | nil => simp at h
  | cons p ps ih =>
    by_cases hp : p.1 = c
    · exact ⟨p.2, by simp [colFind, hp]⟩
    · obtain ⟨q, hq, hqc⟩ := h
      rcases List.mem_cons.mp hq with rfl | hq
      · exact absurd hqc hp
      · simpa [colFind, hp] using ih ⟨q, hq, hqc⟩

theorem setCol_colNames (d : DataFrame) (c : String) (v : List Cell) :
    (d.setCol c v).colNames = d.colNames := by
  unfold DataFrame.setCol DataFrame.colNames
  split
  · simp
  · simp only [List.map_map]
    congr 1
    funext p
    by_cases h : p.1 = c <;> simp [h]

theorem setCol_nrows (d : DataFrame) (c : String) (v : List Cell) :
    (d.setCol c v).nrows = if d.nrows = 0 then v.length else d.nrows := by
  unfold DataFrame.setCol
  split <;> simp_all

theorem setCol_nrows_of {d : DataFrame} {n : Nat} (c : String) {v : List Cell}
    (hd : d.nrows = n) (hv : v.length = n) : (d.setCol c v).nrows = n := by
  rw [setCol_nrows]
  split <;> omega

theorem colFind_setMap_self {l : List (String × List Cell)} {c : String}
    (v : List Cell) (h : ∃ p ∈ l, p.1 = c) :
    colFind (l.map (fun p => if p.1 = c then (p.1, v) else p)) c = some v := by
  induction l with
  | nil => simp at h
  | cons p ps ih =>
    by_cases hp : p.1 = c
    · simp [colFind, hp]
    · obtain ⟨q, hq, hqc⟩ := h
      rcases List.mem_cons.mp hq with rfl | hq
      · exact absurd hqc hp
      · simpa [colFind, hp] using ih ⟨q, hq, hqc⟩

theorem colFind_padMap_self {l : List (String × List Cell)} {c : String}
    (v w : List Cell) (h : ∃ p ∈ l, p.1 = c) :
    colFind (l.map (fun p => (p.1, if p.1 = c then v else w))) c = some v := by
  induction l with
  | nil => simp at h
  | cons p ps ih =>
    by_cases hp : p.1 = c
    · simp [colFind, hp]
    · obtain ⟨q, hq, hqc⟩ := h
      rcases List.mem_cons.mp hq with rfl | hq
      · exact absurd hqc hp
      · simpa [colFind, hp] using ih ⟨q, hq, hqc⟩

theorem getCol?_setCol_self {d : DataFrame} {c : String} (v : List Cell)
    (h : c ∈ d.colNames) : (d.setCol c v).getCol? c = some v := by
  have hmem : ∃ p ∈ d.cols, p.1 = c := by
    obtain ⟨p, hp, hpc⟩ := List.mem_map.mp h
    exact ⟨p, hp, hpc⟩
  unfold DataFrame.setCol DataFrame.getCol?
  split
  · exact colFind_padMap_self v _ hmem
  · exact colFind_setMap_self v hmem

theorem colFind_setMap_ne {l : List (String × List Cell)} {c cn : String}
    (v : List Cell) (h : cn ≠ c) :
    colFind (l.map (fun p => if p.1 = c then (p.1, v) else p)) cn = colFind l cn := by
  induction l with
  | nil => rfl
  | cons p ps ih =>
    by_cases hp : p.1 = c
    · have hpn : p.1 ≠ cn := by rw [hp]; exact fun hx => h hx.symm
      simp [colFind, hp, hpn, Ne.symm h, ih]
    · by_cases hpn : p.1 = cn <;> simp [colFind, hp, hpn, ih, h]

theorem colFind_padMap_ne {l : List (String × List Cell)} {c cn : String}
    (v w : List Cell) (h : cn ≠ c) :
    colFind (l.map (fun p => (p.1, if p.1 = c then v else w))) cn =
      (colFind l cn).map (fun _ => w) := by
  induction l with
  | nil => rfl
  | cons p ps ih =>
    by_cases hpn : p.1 = cn
    · have hp : ¬p.1 = c := by rw [hpn]; exact h
      simp [colFind, hpn, hp, h]
    · simp [colFind, hpn, ih]

theorem getCol?_setCol_ne {d : DataFrame} {c cn : String} (v : List Cell)
    (h : cn ≠ c) : (d.setCol c v).getCol? cn =
      if d.nrows = 0 then
        (d.getCol? cn).map (fun _ => List.replicate v.length (none : Cell))
      else d.getCol? cn := by
  unfold DataFrame.setCol DataFrame.getCol?
  split
  · exact colFind_padMap_ne _ _ h
  · exact colFind_setMap_ne _ h

theorem setCol_cols_cases {d : DataFrame} {c : String} {v : List Cell} :
    ∀ p ∈ (d.setCol c v).cols,
      (p.1 = c ∧ p.2 = v) ∨ p.2 = List.replicate v.length (none : Cell) ∨
        p ∈ d.cols := by
  unfold DataFrame.setCol
  split
  · intro p hp
    simp only [List.mem_map] at hp
    obtain ⟨q, _, hpq⟩ := hp
    by_cases hqc : q.1 = c
    · left
      subst hpq
      exact ⟨by simpa using hqc, by simp [hqc]⟩
    · right; left
      subst hpq
      simp [hqc]
  · intro p hp
    simp only [List.mem_map] at hp
    obtain ⟨q, hq, hpq⟩ := hp
    by_cases hqc : q.1 = c
    · left
      subst hpq
      exact ⟨by simp [hqc], by simp [hqc]⟩
    · right; right
      subst hpq
      simpa [hqc] using hq

theorem colFind_mapSnd (f : List Cell → List Cell) (l : List (String × List Cell))
    (c : String) :
    colFind (l.map (fun p => (p.1, f p.2))) c = (colFind l c).map f := by
  induction l with
  | nil => rfl
  | cons p ps ih =>
    by_cases hp : p.1 = c <;> simp [colFind, hp, ih]

theorem fillna_nrows (d : DataFrame) : d.fillna.nrows = d.nrows := rfl

theorem fillna_colNames (d : DataFrame) : d.fillna.colNames = d.colNames := by
  simp [DataFrame.fillna, DataFrame.colNames, List.map_map, Function.comp]

theorem getCol?_fillna (d : DataFrame) (c : String) :
    d.fillna.getCol? c = (d.getCol? c).map (List.map DataFrame.fillCell) :=
  colFind_mapSnd _ d.cols c

theorem fillCell_ne_none (x : Cell) : DataFrame.fillCell x ≠ none := by
  cases x <;> simp [DataFrame.fillCell]

theorem fillna_cols_shape {d : DataFrame} :
    ∀ p ∈ d.fillna.cols, ∃ q ∈ d.cols, p = (q.1, q.2.map DataFrame.fillCell) := by
  intro p hp
  simp only [DataFrame.fillna, List.mem_map] at hp
  obtain ⟨q, hq, hpq⟩ := hp
  exact ⟨q, hq, hpq.symm⟩

theorem removeCols_sub {l : List (String × List Cell)} {c : String} :
    ∀ p ∈ DataFrame.removeCols l c, p ∈ l := by
  induction l with
  | nil => simp [DataFrame.removeCols]
  | cons q qs ih =>
    intro p hp
    by_cases hq : q.1 = c
    · simp only [DataFrame.removeCols, if_pos hq] at hp
      exact List.mem_cons_of_mem _ (ih p hp)
    · simp only [DataFrame.removeCols, if_neg hq] at hp
      rcases List.mem_cons.mp hp with rfl | hp
      · exact List.mem_cons_self ..
      · exact List.mem_cons_of_mem _ (ih p hp)

theorem keepCols_sub {l : List (String × List Cell)} {c : String} :
    ∀ p ∈ DataFrame.keepCols l c, p ∈ l ∧ p.1 = c := by
  induction l with
  | nil => simp [DataFrame.keepCols]
  | cons q qs ih =>
    intro p hp
    by_cases hq : q.1 = c
    · simp only [DataFrame.keepCols, if_pos hq] at hp
      rcases List.mem_cons.mp hp with rfl | hp
      · exact ⟨List.mem_cons_self .., hq⟩
      · exact ⟨List.mem_cons_of_mem _ (ih p hp).1, (ih p hp).2⟩
    · simp only [DataFrame.keepCols, if_neg hq] at hp
      exact ⟨List.mem_cons_of_mem _ (ih p hp).1, (ih p hp).2⟩

theorem colFind_removeCols {l : List (String × List Cell)} {c cn : String}
    (h : cn ≠ c) : colFind (DataFrame.removeCols l c) cn = colFind l cn := by
  induction l with
  | nil => rfl
  | cons q qs ih =>
    by_cases hq : q.1 = c
    · have hqn : q.1 ≠ cn := by rw [hq]; exact fun hx => h hx.symm
      simp [DataFrame.removeCols, colFind, hq, hqn, Ne.symm h, ih]
    · by_cases hqn : q.1 = cn <;>
        simp [DataFrame.removeCols, colFind, hq, hqn, h, ih]

theorem colFind_keepCols_self {l : List (String × List Cell)} {c : String} :
    colFind (DataFrame.keepCols l c) c = colFind l c := by
  induction l with
  | nil => rfl
  | cons q qs ih =>
    by_cases hq : q.1 = c <;> simp [DataFrame.keepCols, colFind, hq, ih]

theorem removeCols_names {l : List (String × List Cell)} {c : String} :
    (DataFrame.removeCols l c).map Prod.fst =
      (l.map Prod.fst).filter (fun x => !(x == c)) := by
  induction l with
  | nil => rfl
  | cons q qs ih =>
    by_cases hq : q.1 = c
    · have hb : (q.1 == c) = true := beq_iff_eq.mpr hq
      simp [DataFrame.removeCols, List.filter, hq, hb, ih]
    · have hb : (q.1 == c) = false := beq_eq_false_iff_ne.mpr hq
      simp [DataFrame.removeCols, List.filter, hq, hb, ih]

theorem keepCols_names {l : List (String × List Cell)} {c : String} :
    (DataFrame.keepCols l c).map Prod.fst =
      (l.map Prod.fst).filter (fun x => x == c) := by
  induction l with
  | nil => rfl
  | cons q qs ih =>
    by_cases hq : q.1 = c
    · have hb : (q.1 == c) = true := beq_iff_eq.mpr hq
      simp [DataFrame.keepCols, List.filter, hq, hb, ih]
    · have hb : (q.1 == c) = false := beq_eq_false_iff_ne.mpr hq
      simp [DataFrame.keepCols, List.filter, hq, hb, ih]

theorem mkEmpty_colNames (s : List String) : (DataFrame.mkEmpty s).colNames = s := by
  induction s with
  | nil => rfl
  | cons c cs ih =>
    simpa [DataFrame.mkEmpty, DataFrame.colNames] using
      (by simpa [DataFrame.mkEmpty, DataFrame.colNames] using ih)

theorem mkEmpty_allNone (s : List String) :
    ∀ p ∈ (DataFrame.mkEmpty s).cols, ∀ x ∈ p.2, x = (none : Cell) := by
  intro p hp
  simp only [DataFrame.mkEmpty, List.mem_map] at hp
  obtain ⟨c, _, hpc⟩ := hp
  subst hpc
  simp

theorem getDummies_length (pfx : String) (cells : List Cell) :
    ∀ p ∈ getDummies pfx cells, p.2.length = cells.length := by
  intro p hp
  simp only [getDummies, List.mem_map] at hp
  obtain ⟨v, _, hpv⟩ := hp
  subst hpv
  simp

theorem buildPlaceholder_none {fs : List String} {df : DataFrame}
    (h : ∃ f ∈ fs, f ∉ df.colNames) : buildPlaceholder fs df = none := by
  induction fs with
  | nil => simp at h
  | cons f0 rest ih =>
    obtain ⟨f, hf, hfm⟩ := h
    rcases hc : df.getCol? f0 with _ | cells
    · simp [buildPlaceholder, hc]
    · have hf0 : f0 ∈ df.colNames := by
        by_contra hx
        rw [← getCol?_eq_none] at hx
        rw [hx] at hc
        cases hc
      rcases List.mem_cons.mp hf with rfl | hf
      · exact absurd hf0 hfm
      · simp [buildPlaceholder, hc, ih ⟨f, hf, hfm⟩]

theorem buildPlaceholder_some {fs : List String} {df : DataFrame}
    (h : ∀ f ∈ fs, f ∈ df.colNames) : ∃ ph, buildPlaceholder fs df = some ph := by
  induction fs with
  | nil => exact ⟨[], rfl⟩
  | cons f0 rest ih =>
    have hf0 : f0 ∈ df.colNames := h f0 (List.mem_cons_self ..)
    obtain ⟨p, hp, hpc⟩ := List.mem_map.mp hf0
    obtain ⟨cells, hcells⟩ := colFind_isSome_of_mem (l := df.cols) ⟨p, hp, hpc⟩
    obtain ⟨tl, htl⟩ := ih (fun f hf => h f (List.mem_cons_of_mem _ hf))
    exact ⟨getDummies f0 cells ++ tl,
      by simp [buildPlaceholder, DataFrame.getCol?, hcells, htl]⟩

theorem buildPlaceholder_length {fs : List String} {df : DataFrame}
    {ph : List (String × List Cell)} (h : buildPlaceholder fs df = some ph)
    (hwf : df.WF) : ∀ p ∈ ph, p.2.length = df.nrows := by
  induction fs generalizing ph with
  | nil =>
    simp only [buildPlaceholder] at h
    cases h
    simp
  | cons f0 rest ih =>
    simp only [buildPlaceholder] at h
    rcases hc : df.getCol? f0 with _ | cells
    · rw [hc] at h; cases h
    · rw [hc] at h
      rcases htl : buildPlaceholder rest df with _ | tl
      · rw [htl] at h; cases h
      · rw [htl] at h
        simp only [Option.map_some'] at h
        cases h
        intro p hp
        rcases List.mem_append.mp hp with hp | hp
        · rw [getDummies_length f0 cells p hp]
          exact getCol?_length hwf hc
        · exact ih htl p hp

theorem lookupCol_length {ph : List (String × List Cell)} {n : Nat}
    (H : ∀ p ∈ ph, p.2.length = n) {c : String} {cells : List Cell}
    (h : lookupCol ph c = some cells) : cells.length = n :=
  H _ (colFind_mem h)

/-! Lemmas about the output-assembly loop of `encode_features`. -/

theorem assembleLoop_colNames (df : DataFrame) (ph : List (String × List Cell)) :
    ∀ (s : List String) (acc : DataFrame),
      (assembleLoop s df ph acc).colNames = acc.colNames := by
  intro s
  induction s with
  | nil => intro acc; rfl
  | cons c rest ih =>
    intro acc
    simp only [assembleLoop]
    rcases hdf : df.getCol? c with _ | u <;>
      rcases hph : lookupCol ph c with _ | w <;>
      simp [hdf, hph, ih, setCol_colNames]

theorem assembleLoop_nrows_stable {df : DataFrame}
    {ph : List (String × List Cell)} {n : Nat}
    (HdfLen : ∀ c cells, df.getCol? c = some cells → cells.length = n)
    (HphLen : ∀ c cells, lookupCol ph c = some cells → cells.length = n) :
    ∀ (s : List String) (acc : DataFrame), acc.nrows = n →
      (assembleLoop s df ph acc).nrows = n := by
  intro s
  induction s with
  | nil => intro acc h; exact h
  | cons c rest ih =>
    intro acc hacc
    simp only [assembleLoop]
    rcases hdf : df.getCol? c with _ | u <;>
      rcases hph : lookupCol ph c with _ | w <;>
      simp only [hdf, hph]
    · exact ih acc hacc
    · exact ih _ (setCol_nrows_of c hacc (HphLen c w hph))
    · exact ih _ (setCol_nrows_of c hacc (HdfLen c u hdf))
    · exact ih _ (setCol_nrows_of c
        (setCol_nrows_of c hacc (HdfLen c u hdf)) (HphLen c w hph))

theorem assembleLoop_eq_of_nomatch {df : DataFrame}
    {ph : List (String × List Cell)} :
    ∀ (s : List String) (acc : DataFrame),
      (∀ c ∈ s, df.getCol? c = none ∧ lookupCol ph c = none) →
      assembleLoop s df ph acc = acc := by
  intro s
  induction s with
  | nil => intro acc _; rfl
  | cons c rest ih =>
    intro acc h
    have hc := h c (List.mem_cons_self ..)
    simp only [assembleLoop, hc.1, hc.2]
    exact ih acc (fun x hx => h x (List.mem_cons_of_mem _ hx))

theorem assembleLoop_nrows_hit {df : DataFrame}
    {ph : List (String × List Cell)} {n : Nat}
    (HdfLen : ∀ c cells, df.getCol? c = some cells → cells.length = n)
    (HphLen : ∀ c cells, lookupCol ph c = some cells → cells.length = n) :
    ∀ (s : List String) (acc : DataFrame),
      (acc.nrows = 0 ∨ acc.nrows = n) →
      (∃ c ∈ s, (df.getCol? c).isSome ∨ (lookupCol ph c).isSome) →
      (assembleLoop s df ph acc).nrows = n := by
  intro s
  induction s with
  | nil => intro acc _ hex; simp at hex
  | cons c rest ih =>
    intro acc hacc hex
    simp only [assembleLoop]
    rcases hdf : df.getCol? c with _ | u <;>
      rcases hph : lookupCol ph c with _ | w <;>
      simp only [hdf, hph]
    · obtain ⟨c0, hc0, hor⟩ := hex
      rcases List.mem_cons.mp hc0 with rfl | hc0
      · rw [hdf, hph] at hor
        simp at hor
      · exact ih acc hacc ⟨c0, hc0, hor⟩
    · have h2 : (acc.setCol c w).nrows = n := by
        rcases hacc with h0 | hn
        · rw [setCol_nrows]
          simp [h0, HphLen c w hph]
        · exact setCol_nrows_of c hn (HphLen c w hph)
      exact assembleLoop_nrows_stable HdfLen HphLen rest _ h2
    · have h2 : (acc.setCol c u).nrows = n := by
        rcases hacc with h0 | hn
        · rw [setCol_nrows]
          simp [h0, HdfLen c u hdf]
        · exact setCol_nrows_of c hn (HdfLen c u hdf)
      exact assembleLoop_nrows_stable HdfLen HphLen rest _ h2
    · have h2 : (acc.setCol c u).nrows = n := by
        rcases hacc with h0 | hn
        · rw [setCol_nrows]
          simp [h0, HdfLen c u hdf]
        · exact setCol_nrows_of c hn (HdfLen c u hdf)
      exact assembleLoop_nrows_stable HdfLen HphLen rest _
        (setCol_nrows_of c h2 (HphLen c w hph))

theorem setCol_allNone {d : DataFrame} {cn c : String} {v : List Cell}
    (hne : c ≠ cn)
    (hd : ∀ p ∈ d.cols, p.1 = cn → ∀ x ∈ p.2, x = (none : Cell)) :
    ∀ p ∈ (d.setCol c v).cols, p.1 = cn → ∀ x ∈ p.2, x = (none : Cell) := by
  intro p hp hpc
  rcases setCol_cols_cases p hp with ⟨h1, _⟩ | h2 | h3
  · exact absurd (h1.symm.trans hpc) hne
  · rw [h2]
    intro x hx
    exact List.eq_of_mem_replicate hx
  · exact hd p h3 hpc

theorem assembleLoop_allNone {df : DataFrame} {ph : List (String × List Cell)}
    {cn : String} (hdfn : df.getCol? cn = none)
    (hphn : lookupCol ph cn = none) :
    ∀ (s : List String) (acc : DataFrame),
      (∀ p ∈ acc.cols, p.1 = cn → ∀ x ∈ p.2, x = (none : Cell)) →
      ∀ p ∈ (assembleLoop s df ph acc).cols, p.1 = cn →
        ∀ x ∈ p.2, x = (none : Cell) := by
  intro s
  induction s with
  | nil => intro acc h; exact h
  | cons c rest ih =>
    intro acc hacc
    simp only [assembleLoop]
    rcases hdf : df.getCol? c with _ | u <;>
      rcases hph : lookupCol ph c with _ | w <;>
      simp only [hdf, hph]
    · exact ih acc hacc
    · have hne : c ≠ cn := by
        intro h
        rw [h] at hph
        rw [hph] at hphn
        simp at hphn
      exact ih _ (setCol_allNone hne hacc)
    · have hne : c ≠ cn := by
        intro h
        rw [h] at hdf
        rw [hdf] at hdfn
        simp at hdfn
      exact ih _ (setCol_allNone hne hacc)
    · have hne : c ≠ cn := by
        intro h
        rw [h] at hdf
        rw [hdf] at hdfn
        simp at hdfn
      exact ih _ (setCol_allNone hne (setCol_allNone hne hacc))

theorem assembleLoop_keep {df : DataFrame} {ph : List (String × List Cell)}
    {n : Nat} {cn : String} {w : List Cell}
    (HdfLen : ∀ c cells, df.getCol? c = some cells → cells.length = n)
    (HphLen : ∀ c cells, lookupCol ph c = some cells → cells.length = n)
    (hlook : lookupCol ph cn = some w ∨
      (lookupCol ph cn = none ∧ df.getCol? cn = some w))
    (hw : w.length = n) :
    ∀ (s : List String) (acc : DataFrame), acc.nrows = n → cn ∈ acc.colNames →
      acc.getCol? cn = some w →
      (assembleLoop s df ph acc).getCol? cn = some w := by
  intro s
  induction s with
  | nil => intro acc _ _ h; exact h
  | cons c rest ih =>
    intro acc hacc hmem hcur
    simp only [assembleLoop]
    by_cases hc : c = cn
    · subst hc
      rcases hph : lookupCol ph c with _ | w2
      · rcases hlook with hl | ⟨hl1, hl2⟩
        · rw [hph] at hl
          simp at hl
        · rcases hdf : df.getCol? c with _ | u
          · simp only [hdf]
            exact ih acc hacc hmem hcur
          · have hu : u = w := by
              rw [hdf] at hl2
              exact Option.some.inj hl2
            simp only [hdf]
            subst hu
            exact ih _ (setCol_nrows_of c hacc hw)
              (by rw [setCol_colNames]; exact hmem)
              (getCol?_setCol_self u hmem)
      · have hw2 : w2 = w := by
          rcases hlook with hl | ⟨hl1, _⟩
          · rw [hph] at hl
            exact Option.some.inj hl
          · rw [hph] at hl1
            simp at hl1
        subst hw2
        rcases hdf : df.getCol? c with _ | u <;> simp only [hdf]
        · exact ih _ (setCol_nrows_of c hacc hw)
            (by rw [setCol_colNames]; exact hmem)
            (getCol?_setCol_self w2 hmem)
        · have h1n : (acc.setCol c u).nrows = n :=
            setCol_nrows_of c hacc (HdfLen c u hdf)
          have h1m : c ∈ (acc.setCol c u).colNames := by
            rw [setCol_colNames]; exact hmem
          exact ih _ (setCol_nrows_of c h1n hw)
            (by rw [setCol_colNames]; exact h1m)
            (getCol?_setCol_self w2 h1m)
    · have hkeep : ∀ (d : DataFrame) (v : List Cell), d.nrows = n →
          v.length = n → d.getCol? cn = some w →
          (d.setCol c v).getCol? cn = some w := by
        intro d v hdn hv hcol
        rw [getCol?_setCol_ne v (fun hx => hc hx.symm)]
        split
        · have hn0 : n = 0 := by omega
          rw [hcol]
          simp only [Option.map_some']
          have hv0 : v.length = 0 := by omega
          have hw0 : w = [] := List.length_eq_zero.mp (by omega)
          rw [hv0, hw0]
          rfl
        · exact hcol
      rcases hdf : df.getCol? c with _ | u <;>
        rcases hph : lookupCol ph c with _ | w2 <;>
        simp only [hdf, hph]
      · exact ih acc hacc hmem hcur
      · exact ih _ (setCol_nrows_of c hacc (HphLen c w2 hph))
          (by rw [setCol_colNames]; exact hmem)
          (hkeep acc w2 hacc (HphLen c w2 hph) hcur)
      · exact ih _ (setCol_nrows_of c hacc (HdfLen c u hdf))
          (by rw [setCol_colNames]; exact hmem)
          (hkeep acc u hacc (HdfLen c u hdf) hcur)
      · have h1 := hkeep acc u hacc (HdfLen c u hdf) hcur
        have h1n : (acc.setCol c u).nrows = n :=
          setCol_nrows_of c hacc (HdfLen c u hdf)
        have h1m : cn ∈ (acc.setCol c u).colNames := by
          rw [setCol_colNames]; exact hmem
        exact ih _ (setCol_nrows_of c h1n (HphLen c w2 hph))
          (by rw [setCol_colNames]; exact h1m)
          (hkeep _ w2 h1n (HphLen c w2 hph) h1)

/-! Structural lemmas about `encode_features` as a whole. -/

theorem dropCol_colNames (d : DataFrame) (c : String) :
    (d.dropCol c).colNames = d.colNames.filter (fun x => !(x == c)) :=
  removeCols_names

theorem selectCol_colNames (d : DataFrame) (c : String) :
    (d.selectCol c).colNames = d.colNames.filter (fun x => x == c) :=
  keepCols_names

theorem encode_features_eq {fs schema : List String} {df : DataFrame}
    {ph : List (String × List Cell)}
    (hph : buildPlaceholder fs df = some ph)
    (hlab : "app_complete_flag" ∈ schema) :
    encode_features fs schema df = .completed
      ((assembleLoop schema df ph
        (DataFrame.mkEmpty schema)).fillna.dropCol "app_complete_flag")
      ((assembleLoop schema df ph
        (DataFrame.mkEmpty schema)).fillna.selectCol "app_complete_flag") := by
  have hn : ((assembleLoop schema df ph
      (DataFrame.mkEmpty schema)).fillna).colNames = schema := by
    rw [fillna_colNames, assembleLoop_colNames, mkEmpty_colNames]
  unfold encode_features
  rw [hph]
  simp only
  rw [if_pos (by rw [hn]; exact hlab)]

theorem encode_features_completed {fs schema : List String} {df f t : DataFrame}
    (h : encode_features fs schema df = .completed f t) :
    ∃ ph, buildPlaceholder fs df = some ph ∧ "app_complete_flag" ∈ schema ∧
      f = (assembleLoop schema df ph
        (DataFrame.mkEmpty schema)).fillna.dropCol "app_complete_flag" ∧
      t = (assembleLoop schema df ph
        (DataFrame.mkEmpty schema)).fillna.selectCol "app_complete_flag" := by
  unfold encode_features at h
  rcases hph : buildPlaceholder fs df with _ | ph
  · rw [hph] at h
    cases h
  · rw [hph] at h
    simp only at h
    split at h
    · refine ⟨ph, rfl, ?_, ?_, ?_⟩
      · have hn := ‹"app_complete_flag" ∈
          ((assembleLoop schema df ph (DataFrame.mkEmpty schema)).fillna).colNames›
        rwa [fillna_colNames, assembleLoop_colNames, mkEmpty_colNames] at hn
      · cases h
        rfl
      · cases h
        rfl
    · cases h

/-! The claims. -/

/-- C1.  If any feature named in `FEATURES_TO_ENCODE` is absent from
the input columns, `encode_features` aborts: it prints the diagnostic
`Feature not found`, returns the original input frame unmodified, and
writes neither the `features` nor the `target` table (the `aborted`
result carries no written table), raising no exception. -/
theorem claim_C1 (fs schema : List String) (df : DataFrame)
    (h : ∃ f ∈ fs, f ∉ df.colNames) :
    encode_features fs schema df = .aborted "Feature not found" df := by
  unfold encode_features
  rw [buildPlaceholder_none h]

/-- Witness for C1 at a concrete input missing `missing_one`. -/
theorem claim_C1_witness :
    encode_features ["city", "missing_one"] ["city_A", "app_complete_flag"]
      dfSpecEx = .aborted "Feature not found" dfSpecEx :=
  claim_C1 _ _ _ ⟨"missing_one", by decide, by decide⟩

/-- C4 (amended).  Whenever `encode_features` completes, the written
`features` and `target` tables have the same row count; that count
equals the input table's row count whenever at least one configured
output column occurs among the input's columns or the generated
one-hot columns, and is 0 when no configured output column matches
either. -/
theorem claim_C4 (fs schema : List String) (df f t : DataFrame)
    (hwf : df.WF) (h : encode_features fs schema df = .completed f t) :
    f.nrows = t.nrows ∧
    ((∃ c ∈ schema, (df.getCol? c).isSome ∨
        (lookupCol ((buildPlaceholder fs df).getD []) c).isSome) →
      f.nrows = df.nrows) ∧
    ((∀ c ∈ schema, df.getCol? c = none ∧
        lookupCol ((buildPlaceholder fs df).getD []) c = none) →
      f.nrows = 0) := by
  obtain ⟨ph, hph, hlab, hf, ht⟩ := encode_features_completed h
  subst hf
  subst ht
  have HdfLen : ∀ c cells, df.getCol? c = some cells → cells.length = df.nrows :=
    fun _ _ hc => getCol?_length hwf hc
  have HphLen : ∀ c cells, lookupCol ph c = some cells → cells.length = df.nrows :=
    fun _ _ hc => lookupCol_length (buildPlaceholder_length hph hwf) hc
  have hgetD : (buildPlaceholder fs df).getD [] = ph := by
    rw [hph]
    rfl
  refine ⟨rfl, ?_, ?_⟩
  · intro hex
    rw [hgetD] at hex
    show (assembleLoop schema df ph (DataFrame.mkEmpty schema)).nrows = df.nrows
    exact assembleLoop_nrows_hit HdfLen HphLen schema _ (Or.inl rfl) hex
  · intro hnone
    rw [hgetD] at hnone
    show (assembleLoop schema df ph (DataFrame.mkEmpty schema)).nrows = 0
    rw [assembleLoop_eq_of_nomatch schema _ hnone]
    rfl

/-- Counterexample to C4 as stated: on a one-row input whose only
column is the categorical feature `city`, with output schema
`[foo, app_complete_flag]`, no configured output column matches the
input columns or the generated one-hot columns, so the empty output
frame never grows: the encoder completes, writing a features table
that has the column `foo` but 0 rows (and a 0-row target), while the
input table has 1 row. -/
theorem claim_C4_counterexample :
    featuresNrows (encode_features ["city"] ["foo", "app_complete_flag"]
      dfOne) = some 0 ∧
    featuresCols (encode_features ["city"] ["foo", "app_complete_flag"]
      dfOne) = some ["foo"] ∧
    dfOne.nrows = 1 :=
  ⟨rfl, rfl, rfl⟩

/-- Witness for C4 (amended) at a concrete completing input with a
matching output column. -/
theorem claim_C4_witness : dfC4f.nrows = dfOne.nrows :=
  (claim_C4 ["city"] ["city_A", "app_complete_flag"] dfOne dfC4f dfC4t
    (by decide) (by decide)).2.1 ⟨"city_A", by decide, Or.inr (by decide)⟩

/-- C5.  When every feature named in `FEATURES_TO_ENCODE` is present
in the input, the written `features` table's columns are exactly the
configured output schema minus the label column `app_complete_flag`,
in the configured order, and the `target` table has exactly the label
column. -/
theorem claim_C5 (fs schema : List String) (df : DataFrame)
    (hall : ∀ f ∈ fs, f ∈ df.colNames)
    (hcnt : schema.count "app_complete_flag" = 1) :
    featuresCols (encode_features fs schema df) =
      some (schema.filter (fun c => !(c == "app_complete_flag"))) ∧
    targetCols (encode_features fs schema df) = some ["app_complete_flag"] := by
  obtain ⟨ph, hph⟩ := buildPlaceholder_some hall
  have hlab : "app_complete_flag" ∈ schema :=
    List.count_pos_iff.mp (by omega)
  rw [encode_features_eq hph hlab]
  have hn : ((assembleLoop schema df ph
      (DataFrame.mkEmpty schema)).fillna).colNames = schema := by
    rw [fillna_colNames, assembleLoop_colNames, mkEmpty_colNames]
  constructor
  · show some _ = some _
    rw [dropCol_colNames, hn]
  · show some _ = some _
    rw [selectCol_colNames, hn, List.filter_beq, hcnt]
    rfl

/-- Witness for C5 at the specification's two-row example input. -/
theorem assembleLoop_assign {df : DataFrame} {ph : List (String × List Cell)}
    {n : Nat} {cn : String} {w : List Cell}
    (HdfLen : ∀ c cells, df.getCol? c = some cells → cells.length = n)
    (HphLen : ∀ c cells, lookupCol ph c = some cells → cells.length = n)
    (hph : lookupCol ph cn = some w) (hw : w.length = n) :
    ∀ (s : List String) (acc : DataFrame),
      (acc.nrows = 0 ∨ acc.nrows = n) → cn ∈ acc.colNames → cn ∈ s →
      (assembleLoop s df ph acc).getCol? cn = some w := by
  intro s
  induction s with
  | nil =>
    intro acc _ _ hc
    simp at hc
  | cons c rest ih =>
    intro acc hacc hmem hc
    have hstep : ∀ (d : DataFrame) (c0 : String) (v : List Cell),
        (d.nrows = 0 ∨ d.nrows = n) → v.length = n →
        ((d.setCol c0 v).nrows = 0 ∨ (d.setCol c0 v).nrows = n) := by
      intro d c0 v hd hv
      rw [setCol_nrows]
      by_cases hz : d.nrows = 0
      · rw [if_pos hz]
        right
        exact hv
      · rw [if_neg hz]
        rcases hd with h0 | hn
        · exact absurd h0 hz
        · right
          exact hn
    simp only [assembleLoop]
    by_cases hcc : c = cn
    · subst hcc
      rw [hph]
      rcases hdf : df.getCol? c with _ | u
      · have h2n : (acc.setCol c w).nrows = n := by
          rcases hacc with h0 | hn
          · rw [setCol_nrows]
            simp [h0, hw]
          · exact setCol_nrows_of c hn hw
        exact assembleLoop_keep HdfLen HphLen (Or.inl hph) hw rest _ h2n
          (by rw [setCol_colNames]; exact hmem) (getCol?_setCol_self w hmem)
      · have h1 : (acc.setCol c u).nrows = 0 ∨ (acc.setCol c u).nrows = n :=
          hstep acc c u hacc (HdfLen c u hdf)
        have h1m : c ∈ (acc.setCol c u).colNames := by
          rw [setCol_colNames]
          exact hmem
        have h2n : ((acc.setCol c u).setCol c w).nrows = n := by
          rcases h1 with h0 | hn
          · rw [setCol_nrows]
            simp [h0, hw]
          · exact setCol_nrows_of c hn hw
        exact assembleLoop_keep HdfLen HphLen (Or.inl hph) hw rest _ h2n
          (by rw [setCol_colNames]; exact h1m) (getCol?_setCol_self w h1m)
    · have hcr : cn ∈ rest := by
        rcases List.mem_cons.mp hc with h | h
        · exact absurd h.symm hcc
        · exact h
      rcases hdf : df.getCol? c with _ | u <;>
        rcases hph2 : lookupCol ph c with _ | w2 <;>
        simp only [hdf, hph2]
      · exact ih acc hacc hmem hcr
      · exact ih _ (hstep acc c w2 hacc (HphLen c w2 hph2))
          (by rw [setCol_colNames]; exact hmem) hcr
      · exact ih _ (hstep acc c u hacc (HdfLen c u hdf))
          (by rw [setCol_colNames]; exact hmem) hcr
      · exact ih _ (hstep _ c w2 (hstep acc c u hacc (HdfLen c u hdf))
            (HphLen c w2 hph2))
          (by rw [setCol_colNames, setCol_colNames]; exact hmem) hcr

theorem assembleLoop_assign_df {df : DataFrame} {ph : List (String × List Cell)}
    {n : Nat} {cn : String} {u : List Cell}
    (HdfLen : ∀ c cells, df.getCol? c = some cells → cells.length = n)
    (HphLen : ∀ c cells, lookupCol ph c = some cells → cells.length = n)
    (hphn : lookupCol ph cn = none) (hdf : df.getCol? cn = some u)
    (hu : u.length = n) :
    ∀ (s : List String) (acc : DataFrame),
      (acc.nrows = 0 ∨ acc.nrows = n) → cn ∈ acc.colNames → cn ∈ s →
      (assembleLoop s df ph acc).getCol? cn = some u := by
  intro s
  induction s with
  | nil =>
    intro acc _ _ hc
    simp at hc
  | cons c rest ih =>
    intro acc hacc hmem hc
    have hstep : ∀ (d : DataFrame) (c0 : String) (v : List Cell),
        (d.nrows = 0 ∨ d.nrows = n) → v.length = n →
        ((d.setCol c0 v).nrows = 0 ∨ (d.setCol c0 v).nrows = n) := by
      intro d c0 v hd hv
      rw [setCol_nrows]
      by_cases hz : d.nrows = 0
      · rw [if_pos hz]
        right
        exact hv
      · rw [if_neg hz]
        rcases hd with h0 | hn
        · exact absurd h0 hz
        · right
          exact hn
    simp only [assembleLoop]
    by_cases hcc : c = cn
    · subst hcc
      rw [hdf, hphn]
      have h2n : (acc.setCol c u).nrows = n := by
        rcases hacc with h0 | hn
        · rw [setCol_nrows]
          simp [h0, hu]
        · exact setCol_nrows_of c hn hu
      exact assembleLoop_keep HdfLen HphLen (Or.inr ⟨hphn, hdf⟩) hu rest _ h2n
        (by rw [setCol_colNames]; exact hmem) (getCol?_setCol_self u hmem)
    · have hcr : cn ∈ rest := by
        rcases List.mem_cons.mp hc with h | h
        · exact absurd h.symm hcc
        · exact h
      rcases hdf2 : df.getCol? c with _ | u2 <;>
        rcases hph2 : lookupCol ph c with _ | w2 <;>
        simp only [hdf2, hph2]
      · exact ih acc hacc hmem hcr
      · exact ih _ (hstep acc c w2 hacc (HphLen c w2 hph2))
          (by rw [setCol_colNames]; exact hmem) hcr
      · exact ih _ (hstep acc c u2 hacc (HdfLen c u2 hdf2))
          (by rw [setCol_colNames]; exact hmem) hcr
      · exact ih _ (hstep _ c w2 (hstep acc c u2 hacc (HdfLen c u2 hdf2))
            (HphLen c w2 hph2))
          (by rw [setCol_colNames, setCol_colNames]; exact hmem) hcr

/-- C2 (amended).  When the encoder assembles the output frame, a
configured output column that matches a generated one-hot column name
receives the generated column — this takes precedence, so for a name
present both verbatim in the input and among the generated one-hot
columns, the copied value is the generated column (the passthrough
copy is overwritten); a name present only verbatim in the input is
copied from the input as-is; a name matching neither stays entirely
missing until the zero-fill step. -/
theorem claim_C2 (fs schema : List String) (df : DataFrame)
    (ph : List (String × List Cell)) (c : String)
    (hwf : df.WF) (hph : buildPlaceholder fs df = some ph) (hc : c ∈ schema) :
    (∀ w, lookupCol ph c = some w →
      (assembleLoop schema df ph (DataFrame.mkEmpty schema)).getCol? c =
        some w) ∧
    (lookupCol ph c = none → ∀ u, df.getCol? c = some u →
      (assembleLoop schema df ph (DataFrame.mkEmpty schema)).getCol? c =
        some u) ∧
    (lookupCol ph c = none → df.getCol? c = none →
      ∀ cells,
        (assembleLoop schema df ph (DataFrame.mkEmpty schema)).getCol? c =
          some cells →
        ∀ x ∈ cells, x = (none : Cell)) := by
  have HdfLen : ∀ c0 cells, df.getCol? c0 = some cells →
      cells.length = df.nrows :=
    fun _ _ h => getCol?_length hwf h
  have HphLen : ∀ c0 cells, lookupCol ph c0 = some cells →
      cells.length = df.nrows :=
    fun _ _ h => lookupCol_length (buildPlaceholder_length hph hwf) h
  have hmem : c ∈ (DataFrame.mkEmpty schema).colNames := by
    rw [mkEmpty_colNames]
    exact hc
  refine ⟨?_, ?_, ?_⟩
  · intro w hw
    exact assembleLoop_assign HdfLen HphLen hw (HphLen c w hw) schema _
      (Or.inl rfl) hmem hc
  · intro hn u hu
    exact assembleLoop_assign_df HdfLen HphLen hn hu (HdfLen c u hu) schema _
      (Or.inl rfl) hmem hc
  · intro hn1 hn2 cells hcells x hx
    exact assembleLoop_allNone hn2 hn1 schema _
      (fun p hp _ => mkEmpty_allNone schema p hp) _
      (colFind_mem hcells) rfl x hx

/-- Counterexample to C2 as stated: on `dfBoth` the name `city_A` is
present both verbatim in the input (holding 7) and among the generated
one-hot columns (holding 1); the written features table holds the
generated value 1, not the input's 7. -/
theorem claim_C2_counterexample :
    (resultFeatures (encode_features ["city"] ["city_A", "app_complete_flag"]
        dfBoth)).bind (fun f => cellAt f "city_A" 0) =
      some (some (Val.i 1)) ∧
    dfBoth.getCol? "city_A" = some [some (Val.i 7)] ∧
    (some (Val.i 1) : Cell) ≠ some (Val.i 7) := by
  refine ⟨rfl, rfl, ?_⟩
  decide

/-- Witness for C2 (amended) on `dfBoth`: the generated column wins. -/
theorem claim_C2_witness :
    (assembleLoop ["city_A", "app_complete_flag"] dfBoth
      [("city_A", [some (Val.i 1)])]
      (DataFrame.mkEmpty ["city_A", "app_complete_flag"])).getCol? "city_A" =
      some [some (Val.i 1)] :=
  (claim_C2 ["city"] ["city_A", "app_complete_flag"] dfBoth
    [("city_A", [some (Val.i 1)])] "city_A" (by decide) (by decide)
    (by decide)).1 [some (Val.i 1)] rfl

theorem claim_C5_witness :
    featuresCols (encode_features ["city", "source"]
      ["city_A", "city_B", "source_X", "source_Y", "app_complete_flag"]
      dfSpecEx) =
      some ["city_A", "city_B", "source_X", "source_Y"] ∧
    targetCols (encode_features ["city", "source"]
      ["city_A", "city_B", "source_X", "source_Y", "app_complete_flag"]
      dfSpecEx) = some ["app_complete_flag"] :=
  claim_C5 _ _ _ (by decide) (by decide)

theorem cellAt_selectCol (d : DataFrame) (c : String) (i : Nat) :
    cellAt (d.selectCol c) c i = cellAt d c i := by
  unfold cellAt DataFrame.getCol? DataFrame.selectCol
  rw [colFind_keepCols_self]

theorem cellAt_dropCol {c cn : String} (d : DataFrame) (i : Nat) (h : cn ≠ c) :
    cellAt (d.dropCol c) cn i = cellAt d cn i := by
  unfold cellAt DataFrame.getCol? DataFrame.dropCol
  rw [colFind_removeCols h]

/-- C6.  Whenever `encode_features` completes, no cell of the written
`features` or `target` tables is missing, and every cell that was
still missing after the output frame was assembled holds exactly the
integer 0 in the written table that received its column. -/
theorem claim_C6 (fs schema : List String) (df f t : DataFrame)
    (h : encode_features fs schema df = .completed f t) :
    (∀ c i x, cellAt f c i = some x → x ≠ none) ∧
    (∀ c i x, cellAt t c i = some x → x ≠ none) ∧
    (∀ e, assembled fs schema df = some e → ∀ c i,
      cellAt e c i = some none →
      cellAt (if c = "app_complete_flag" then t else f) c i =
        some (some (Val.i 0))) := by
  obtain ⟨ph, hph, hlab, hf, ht⟩ := encode_features_completed h
  refine ⟨?_, ?_, ?_⟩
  · intro c i x hx
    subst hf
    rcases Option.bind_eq_some.mp hx with ⟨cells, hcells, hget⟩
    have hmem : (c, cells) ∈ ((assembleLoop schema df ph
        (DataFrame.mkEmpty schema)).fillna).cols :=
      removeCols_sub _ (colFind_mem hcells)
    obtain ⟨q, _, hq⟩ := fillna_cols_shape _ hmem
    have hcc : cells = q.2.map DataFrame.fillCell := congrArg Prod.snd hq
    have hx2 : x ∈ cells := List.get?_mem hget
    rw [hcc] at hx2
    obtain ⟨y, _, hy⟩ := List.mem_map.mp hx2
    rw [← hy]
    exact fillCell_ne_none y
  · intro c i x hx
    subst ht
    rcases Option.bind_eq_some.mp hx with ⟨cells, hcells, hget⟩
    have hmem : (c, cells) ∈ ((assembleLoop schema df ph
        (DataFrame.mkEmpty schema)).fillna).cols :=
      (keepCols_sub _ (colFind_mem hcells)).1
    obtain ⟨q, _, hq⟩ := fillna_cols_shape _ hmem
    have hcc : cells = q.2.map DataFrame.fillCell := congrArg Prod.snd hq
    have hx2 : x ∈ cells := List.get?_mem hget
    rw [hcc] at hx2
    obtain ⟨y, _, hy⟩ := List.mem_map.mp hx2
    rw [← hy]
    exact fillCell_ne_none y
  · intro e he c i hc
    have heq : e = assembleLoop schema df ph (DataFrame.mkEmpty schema) := by
      unfold assembled at he
      rw [hph] at he
      exact (Option.some.inj he).symm
    subst heq
    rcases Option.bind_eq_some.mp hc with ⟨cells, hcells, hget⟩
    have hfill : ((assembleLoop schema df ph
        (DataFrame.mkEmpty schema)).fillna).getCol? c =
          some (cells.map DataFrame.fillCell) := by
      rw [getCol?_fillna, hcells]
      rfl
    have hgetf : (cells.map DataFrame.fillCell).get? i =
        some (some (Val.i 0)) := by
      rw [List.get?_map, hget]
      rfl
    by_cases hcl : c = "app_complete_flag"
    · rw [if_pos hcl]
      subst ht
      subst hcl
      rw [cellAt_selectCol]
      unfold cellAt
      rw [hfill]
      exact hgetf
    · rw [if_neg hcl]
      subst hf
      rw [cellAt_dropCol _ _ hcl]
      unfold cellAt
      rw [hfill]
      exact hgetf

/-- Witness for C6: on `dfOne` the label cell is missing after
assembly and the written target holds exactly 0 there. -/
theorem claim_C6_witness :
    cellAt dfC4t "app_complete_flag" 0 = some (some (Val.i 0)) := by
  have h := (claim_C6 ["city"] ["city_A", "app_complete_flag"] dfOne dfC4f
    dfC4t (by decide)).2.2
    ((assembled ["city"] ["city_A", "app_complete_flag"] dfOne).getD
      (DataFrame.mkEmpty []))
    (by decide) "app_complete_flag" 0 (by decide)
  simpa using h

/-- C10.  When every configured categorical feature is present but the
label column `app_complete_flag` is absent from the input (and no
generated one-hot column takes the label's name), `encode_features`
completes without diagnostic or failure, and every value written to
the `target` table is exactly 0, produced by the zero-fill step. -/
theorem claim_C10 (fs schema : List String) (df : DataFrame)
    (hall : ∀ f ∈ fs, f ∈ df.colNames)
    (habs : "app_complete_flag" ∉ df.colNames)
    (hlab : "app_complete_flag" ∈ schema)
    (hgen : lookupCol ((buildPlaceholder fs df).getD [])
      "app_complete_flag" = none) :
    completedB (encode_features fs schema df) = true ∧
    (∀ t, resultTarget (encode_features fs schema df) = some t →
      ∀ p ∈ t.cols, ∀ x ∈ p.2, x = some (Val.i 0)) := by
  obtain ⟨ph, hph⟩ := buildPlaceholder_some hall
  have hgen2 : lookupCol ph "app_complete_flag" = none := by
    rw [hph] at hgen
    exact hgen
  have hdfn : df.getCol? "app_complete_flag" = none :=
    getCol?_eq_none.mpr habs
  rw [encode_features_eq hph hlab]
  refine ⟨rfl, ?_⟩
  intro t ht p hp x hx
  have ht2 : t = (assembleLoop schema df ph
      (DataFrame.mkEmpty schema)).fillna.selectCol "app_complete_flag" :=
    (Option.some.inj ht).symm
  subst ht2
  obtain ⟨hpm, hpl⟩ := keepCols_sub _ hp
  obtain ⟨q, hqm, hq⟩ := fillna_cols_shape _ hpm
  have hq1 : p.1 = q.1 := by rw [hq]
  have hq2 : p.2 = q.2.map DataFrame.fillCell := by rw [hq]
  have hqall : ∀ y ∈ q.2, y = (none : Cell) :=
    assembleLoop_allNone hdfn hgen2 schema _
      (fun r hr _ => mkEmpty_allNone schema r hr) q hqm (hq1 ▸ hpl)
  rw [hq2] at hx
  obtain ⟨y, hym, hy⟩ := List.mem_map.mp hx
  rw [← hy, hqall y hym]
  rfl

/-- Witness for C10 on `dfOne`, whose input lacks the label column. -/
theorem claim_C10_witness :
    completedB (encode_features ["city"] ["city_A", "app_complete_flag"]
      dfOne) = true :=
  (claim_C10 ["city"] ["city_A", "app_complete_flag"] dfOne (by decide)
    (by decide) (by decide) (by decide)).1

/-! Lemmas about the metric block and `get_trained_model`. -/

theorem rocAucCheck_ok {a b : List Nat} {m : MetricExpr}
    (h : rocAucCheck a b = .ok m) : m = .rocAuc a b := by
  unfold rocAucCheck at h
  split at h
  · exact (Except.ok.inj h).symm
  · cases h

theorem cmGet_ok {m : List (List Nat)} {i j v : Nat}
    (h : cmGet m i j = .ok v) : cmEntry m i j = v := by
  unfold cmGet at h
  rcases h2 : (m.get? i).bind (fun row => row.get? j) with _ | v2
  · rw [h2] at h
    cases h
  · rw [h2] at h
    unfold cmEntry
    rw [h2]
    simpa using Except.ok.inj h

theorem metricPhase_ok_shape {yTest yPred : List Nat}
    {pr : List ((List Nat) × (List Nat)) × List (String × MetricExpr)}
    (h : metricPhase yTest yPred = .ok pr) :
    pr.1 = [(yPred, yTest), (yTest, yPred)] ∧
    pr.2 = [("roc_auc_score", MetricExpr.rocAuc yPred yTest),
      ("test_accuracy", MetricExpr.accuracy yPred yTest),
      ("f1", MetricExpr.f1Macro yPred yTest),
      ("Precision", MetricExpr.precisionMacro yPred yTest),
      ("Recall", MetricExpr.recallMacro yPred yTest),
      ("Precision_0", MetricExpr.prfsComp yTest yPred 0 0),
      ("Precision_1", MetricExpr.prfsComp yTest yPred 1 0),
      ("Recall_0", MetricExpr.prfsComp yTest yPred 0 1),
      ("Recall_1", MetricExpr.prfsComp yTest yPred 1 1),
      ("f1_0", MetricExpr.prfsComp yTest yPred 0 2),
      ("f1_1", MetricExpr.prfsComp yTest yPred 1 2),
      ("False Negative",
        MetricExpr.count (cmEntry (confusionMatrix yTest yPred) 1 0)),
      ("True Negative",
        MetricExpr.count (cmEntry (confusionMatrix yTest yPred) 0 0))] := by
  unfold metricPhase at h
  split at h
  · cases h
  next aucScore heq =>
    split at h
    · cases h
    next tn heq00 =>
      split at h
      · cases h
      next fn heq10 =>
        split at h
        · cases h
        next tp heq11 =>
          split at h
          · cases h
          next fp heq01 =>
            injection h with h2
            subst h2
            refine ⟨rfl, ?_⟩
            rw [rocAucCheck_ok heq, ← cmGet_ok heq00, ← cmGet_ok heq10]

theorem metricPhase_err_of_degenerate {yTest yPred : List Nat}
    (h : (yPred.dedup).length ≠ 2) :
    metricPhase yTest yPred = .error rocAucErrMsg := by
  unfold metricPhase rocAucCheck
  rw [if_neg h]

theorem gtm_ok_shape {dfF dfT : DataFrame} {fit : Fitter} {e : Nat}
    {r : RunRecord} (h : get_trained_model dfF dfT fit e = .ok r) :
    r.yTest = yTestOf dfF dfT e ∧ r.yPred = predsOf dfF dfT fit e ∧
    metricPhase r.yTest r.yPred = .ok (r.cmCalls, r.metrics) := by
  unfold get_trained_model at h
  split at h
  · cases h
  next pr heq =>
    injection h with h2
    subst h2
    exact ⟨rfl, rfl, heq⟩

theorem gtm_cmCalls_shape {dfF dfT : DataFrame} {fit : Fitter} {e : Nat}
    {r : RunRecord} (h : get_trained_model dfF dfT fit e = .ok r) :
    r.cmCalls = [(r.yPred, r.yTest), (r.yTest, r.yPred)] := by
  obtain ⟨_, _, hmp⟩ := gtm_ok_shape h
  exact (metricPhase_ok_shape hmp).1

theorem gtm_metrics_shape {dfF dfT : DataFrame} {fit : Fitter} {e : Nat}
    {r : RunRecord} (h : get_trained_model dfF dfT fit e = .ok r) :
    r.metrics =
      [("roc_auc_score", MetricExpr.rocAuc r.yPred r.yTest),
       ("test_accuracy", MetricExpr.accuracy r.yPred r.yTest),
       ("f1", MetricExpr.f1Macro r.yPred r.yTest),
       ("Precision", MetricExpr.precisionMacro r.yPred r.yTest),
       ("Recall", MetricExpr.recallMacro r.yPred r.yTest),
       ("Precision_0", MetricExpr.prfsComp r.yTest r.yPred 0 0),
       ("Precision_1", MetricExpr.prfsComp r.yTest r.yPred 1 0),
       ("Recall_0", MetricExpr.prfsComp r.yTest r.yPred 0 1),
       ("Recall_1", MetricExpr.prfsComp r.yTest r.yPred 1 1),
       ("f1_0", MetricExpr.prfsComp r.yTest r.yPred 0 2),
       ("f1_1", MetricExpr.prfsComp r.yTest r.yPred 1 2),
       ("False Negative",
         MetricExpr.count (cmEntry (confusionMatrix r.yTest r.yPred) 1 0)),
       ("True Negative",
         MetricExpr.count (cmEntry (confusionMatrix r.yTest r.yPred) 0 0))] := by
  obtain ⟨_, _, hmp⟩ := gtm_ok_shape h
  exact (metricPhase_ok_shape hmp).2

theorem gtm_err_of_degenerate {dfF dfT : DataFrame} {fit : Fitter} {e : Nat}
    (h : ((predsOf dfF dfT fit e).dedup).length ≠ 2) :
    get_trained_model dfF dfT fit e = .error rocAucErrMsg := by
  unfold get_trained_model
  rw [metricPhase_err_of_degenerate h]

theorem dedup_const {c : Nat} :
    ∀ (l : List Nat), l ≠ [] → (∀ x ∈ l, x = c) → l.dedup = [c] := by
  intro l
  induction l with
  | nil =>
    intro h _
    exact absurd rfl h
  | cons a as ih =>
    intro _ hall
    have ha : a = c := hall a (List.mem_cons_self ..)
    subst ha
    cases as with
    | nil => simp
    | cons b bs =>
      have hall2 : ∀ x ∈ b :: bs, x = a := fun x hx =>
        hall x (List.mem_cons_of_mem _ hx)
      have hmem : a ∈ b :: bs := by
        have hb : b = a := hall2 b (List.mem_cons_self ..)
        rw [hb]
        exact List.mem_cons_self ..
      rw [List.dedup_cons_of_mem hmem]
      exact ih (by simp) hall2

theorem gtmAltEq : get_trained_model dfF4 dfT4 fitAlt 0 = .ok runAlt := by
  rfl

/-- C3.  `get_trained_model` performs exactly two confusion-matrix
computations: the main one with `(predicted, actual)` argument order
and the per-class-count one with `(actual, predicted)` order; the
logged `False Negative` and `True Negative` metrics are the `[1][0]`
and `[0][0]` cells of the `(actual, predicted)` matrix. -/
theorem claim_C3 (dfF dfT : DataFrame) (fit : Fitter) (e : Nat)
    (r : RunRecord) (h : get_trained_model dfF dfT fit e = .ok r) :
    r.cmCalls = [(r.yPred, r.yTest), (r.yTest, r.yPred)] ∧
    List.lookup "False Negative" r.metrics =
      some (MetricExpr.count (cmEntry (confusionMatrix r.yTest r.yPred) 1 0)) ∧
    List.lookup "True Negative" r.metrics =
      some (MetricExpr.count (cmEntry (confusionMatrix r.yTest r.yPred) 0 0)) := by
  refine ⟨gtm_cmCalls_shape h, ?_, ?_⟩ <;> rw [gtm_metrics_shape h] <;> rfl

/-- Witness for C3 at a concrete completed run. -/
theorem claim_C3_witness :
    runAlt.cmCalls = [(runAlt.yPred, runAlt.yTest),
      (runAlt.yTest, runAlt.yPred)] :=
  (claim_C3 dfF4 dfT4 fitAlt 0 runAlt gtmAltEq).1

/-- C7 (amended).  Every invocation of `get_trained_model` whose
metric computation succeeds (in particular, whose ROC-AUC call does
not raise) logs exactly 13 scalar metrics, named `roc_auc_score`,
`test_accuracy`, `f1`, `Precision`, `Recall`, `Precision_0`,
`Precision_1`, `Recall_0`, `Recall_1`, `f1_0`, `f1_1`,
`False Negative` and `True Negative`; an invocation whose ROC-AUC
computation fails logs no metric at all. -/
theorem claim_C7 (dfF dfT : DataFrame) (fit : Fitter) (e : Nat)
    (r : RunRecord) (h : get_trained_model dfF dfT fit e = .ok r) :
    r.metrics.map Prod.fst = metricNames13 ∧ r.metrics.length = 13 := by
  rw [gtm_metrics_shape h]
  exact ⟨rfl, rfl⟩

/-- Counterexample to C7 as stated: with a classifier predicting a
single class, the invocation raises in the ROC-AUC computation before
any metric is logged, so this invocation logs 0 metrics, not 13. -/
theorem claim_C7_counterexample :
    get_trained_model dfF4 dfT4 fitConst 0 = .error rocAucErrMsg := rfl

/-- Witness for C7 (amended) at a concrete completed run. -/
theorem claim_C7_witness : runAlt.metrics.length = 13 :=
  (claim_C7 dfF4 dfT4 fitAlt 0 runAlt gtmAltEq).2

/-- C8.  The 70/30 split uses the fixed seed 0, so `get_trained_model`
is deterministic in the entropy the split helper would otherwise draw:
two invocations reading identical features/target tables produce
identical results, and in particular identical train/test row
partitions. -/
theorem claim_C8 (dfF dfT : DataFrame) (fit : Fitter) (e1 e2 : Nat) :
    get_trained_model dfF dfT fit e1 = get_trained_model dfF dfT fit e2 ∧
    splitIdxOf dfF e1 = splitIdxOf dfF e2 := by
  constructor
  · rfl
  · rfl

/-- C9.  The `test_accuracy`, `roc_auc_score` and macro
`Precision`/`Recall`/`f1` metrics are computed with the predicted
labels in the first (ground-truth) argument position and the actual
test labels second; consequently the ROC-AUC computation fails —
aborting the run — whenever the predictions on the test partition are
all one class, for every actual test-label distribution. -/
theorem claim_C9 :
    (∀ (dfF dfT : DataFrame) (fit : Fitter) (e : Nat) (r : RunRecord),
      get_trained_model dfF dfT fit e = .ok r →
        List.lookup "test_accuracy" r.metrics =
          some (MetricExpr.accuracy r.yPred r.yTest) ∧
        List.lookup "roc_auc_score" r.metrics =
          some (MetricExpr.rocAuc r.yPred r.yTest) ∧
        List.lookup "Precision" r.metrics =
          some (MetricExpr.precisionMacro r.yPred r.yTest) ∧
        List.lookup "Recall" r.metrics =
          some (MetricExpr.recallMacro r.yPred r.yTest) ∧
        List.lookup "f1" r.metrics =
          some (MetricExpr.f1Macro r.yPred r.yTest)) ∧
    (∀ (dfF dfT : DataFrame) (fit : Fitter) (e : Nat) (c : Nat),
      predsOf dfF dfT fit e ≠ [] →
      (∀ x ∈ predsOf dfF dfT fit e, x = c) →
      get_trained_model dfF dfT fit e = .error rocAucErrMsg) := by
  constructor
  · intro dfF dfT fit e r h
    rw [gtm_metrics_shape h]
    exact ⟨rfl, rfl, rfl, rfl, rfl⟩
  · intro dfF dfT fit e c hne hall
    exact gtm_err_of_degenerate (by rw [dedup_const _ hne hall]; simp)

/-- Witness for C9: a concrete completed run logs `test_accuracy` with
predictions first, and a concrete degenerate-prediction run fails. -/
theorem claim_C9_witness :
    List.lookup "test_accuracy" runAlt.metrics =
      some (MetricExpr.accuracy runAlt.yPred runAlt.yTest) ∧
    get_trained_model dfF4 dfT4 fitConst 0 = .error rocAucErrMsg :=
  ⟨(claim_C9.1 dfF4 dfT4 fitAlt 0 runAlt gtmAltEq).1,
   claim_C9.2 dfF4 dfT4 fitConst 0 0 (by decide) (by decide)⟩

end LeadScoring
